import Mathlib

/-!
# ffmpeg_tool.h : sentinels, version predicates, timestamp rescaling

A shallow embedding of the arithmetic content of
`src/jogl/native/libav/ffmpeg_tool.h`:

* the integer constants `INVALID_PTS`, `END_OF_STREAM_PTS`, `AV_STREAM_ID_NONE`,
  `AV_STREAM_ID_AUTO`, read as C integer constants (C99 6.4.4.1) on a platform whose
  `int` is 32 bits wide and whose 64-bit type is `int64_t`;
* the macros `AV_VERSION_MAJOR`, `AV_HAS_API_REQUEST_CHANNELS`,
  `AV_HAS_API_REFCOUNTED_FRAMES`;
* the inline function `my_av_q2i32`;
* the record `PTSStats`, together with the tracker that updates it.

Machine integers are mathematical integers tagged with their C type; conversions
between types are explicit and modular.
-/

namespace FFmpegTool

/-! ## C integer types and values -/

/-- The four integer types that occur in the header's integer expressions. -/
inductive CType where
  | int32
  | uint32
  | int64
  | uint64
  deriving DecidableEq, Repr

/-- Width in bits. -/
def CType.bits : CType → Nat
  | .int32 => 32
  | .uint32 => 32
  | .int64 => 64
  | .uint64 => 64

/-- Signedness. -/
def CType.isSigned : CType → Bool
  | .int32 => true
  | .uint32 => false
  | .int64 => true
  | .uint64 => false

/-- Smallest representable value. -/
def CType.minVal (t : CType) : Int :=
  if t.isSigned then -(2 ^ (t.bits - 1)) else 0

/-- Largest representable value. -/
def CType.maxVal (t : CType) : Int :=
  if t.isSigned then 2 ^ (t.bits - 1) - 1 else 2 ^ t.bits - 1

/-- Membership of a mathematical integer in the range of a type. -/
def CType.holds (t : CType) (v : Int) : Prop :=
  t.minVal ≤ v ∧ v ≤ t.maxVal

instance (t : CType) (v : Int) : Decidable (t.holds v) := by
  unfold CType.holds; exact inferInstance

/-- Conversion of an integer value to type `t` (C99 6.3.1.3): values in range are
kept, others are reduced modulo `2 ^ bits` (for a signed target this is the
implementation-defined result chosen by every two's-complement compiler). -/
def CType.convert (t : CType) (v : Int) : Int :=
  if t.isSigned then
    (v + 2 ^ (t.bits - 1)) % 2 ^ t.bits - 2 ^ (t.bits - 1)
  else
    v % 2 ^ t.bits

/-- Conversion rank position used by the usual arithmetic conversions. -/
def CType.rank : CType → Nat
  | .int32 => 0
  | .uint32 => 1
  | .int64 => 2
  | .uint64 => 3

/-- Common type of a binary operator's operands (C99 6.3.1.8) for the four types
at hand: with `int` of 32 bits, `int` and `unsigned` meet in `unsigned`, either of
them and `int64_t` meet in `int64_t`, anything and `uint64_t` meet in `uint64_t`. -/
def CType.common (s t : CType) : CType :=
  if s.rank ≤ t.rank then t else s

/-- A typed C integer value. -/
structure CInt where
  ty : CType
  val : Int
  deriving DecidableEq, Repr

/-- Type and value of a hexadecimal integer constant without suffix
(C99 6.4.4.1): the first of `int`, `unsigned int`, 64-bit signed, 64-bit unsigned in
which the value fits. -/
def hexConstant (n : Nat) : CInt :=
  if (n : Int) ≤ CType.int32.maxVal then ⟨.int32, n⟩
  else if (n : Int) ≤ CType.uint32.maxVal then ⟨.uint32, n⟩
  else if (n : Int) ≤ CType.int64.maxVal then ⟨.int64, n⟩
  else ⟨.uint64, CType.uint64.convert n⟩

/-- The C operator `==` on two integer operands: both are converted to their
common type and the converted values are compared. -/
def cEq (a b : CInt) : Bool :=
  let t := CType.common a.ty b.ty
  decide (t.convert a.val = t.convert b.val)

/-- Initialisation of, or assignment to, an object of type `t` from `a`. -/
def CInt.storeAs (t : CType) (a : CInt) : CInt :=
  ⟨t, t.convert a.val⟩

/-! ## Constants of the header -/

/-- Macro `#define INVALID_PTS 0x80000000` -/
def INVALID_PTS : CInt := hexConstant 0x80000000

/-- Macro `#define END_OF_STREAM_PTS 0x7FFFFFFF` -/
def END_OF_STREAM_PTS : CInt := hexConstant 0x7FFFFFFF

/-- Macro `#define AV_STREAM_ID_NONE -2` -/
def AV_STREAM_ID_NONE : Int := -2

/-- Macro `#define AV_STREAM_ID_AUTO -1` -/
def AV_STREAM_ID_AUTO : Int := -1

/-- Macro `#define AV_DEFAULT_AFRAMES 8` -/
def AV_DEFAULT_AFRAMES : Int := 8

/-! ## Version macros -/

/-- Macro `#define AV_VERSION_MAJOR(i) ( ( i >> 16 ) & 0xFF )` on a `uint32_t` operand. -/
def AV_VERSION_MAJOR (i : Nat) : Nat := (i >>> 16) &&& 0xFF

/-- Macro `#define AV_VERSION_MINOR(i) ( ( i >>  8 ) & 0xFF )` -/
def AV_VERSION_MINOR (i : Nat) : Nat := (i >>> 8) &&& 0xFF

/-- Macro `#define AV_VERSION_SUB(i)   ( ( i >>  0 ) & 0xFF )` -/
def AV_VERSION_SUB (i : Nat) : Nat := (i >>> 0) &&& 0xFF

/-- Record `PTSStats`: four `int64_t` fields. -/
structure PTSStats where
  ptsError : Int
  dtsError : Int
  ptsLast : Int
  dtsLast : Int
  deriving DecidableEq, Repr

/-- The integer fields of `FFMPEGToolBasicAV_t` that the macros and the timestamp
bookkeeping read (handles, function pointers, floats and character arrays carry no
arithmetic and are left out). `avcodecVersion` is a `uint32_t`; `vid`, `aid`,
`vPTS`, `aPTS` are `int32_t`. -/
structure FFMPEGToolBasicAV_t where
  avcodecVersion : Nat
  avformatVersion : Nat
  avutilVersion : Nat
  vid : Int
  vPTS : Int
  vPTSStats : PTSStats
  aid : Int
  aPTS : Int
  aPTSStats : PTSStats
  deriving Repr

/-- Macro `#define AV_HAS_API_REQUEST_CHANNELS(pAV) (AV_VERSION_MAJOR(pAV->avcodecVersion) < 55)` -/
def AV_HAS_API_REQUEST_CHANNELS (pAV : FFMPEGToolBasicAV_t) : Bool :=
  decide (AV_VERSION_MAJOR pAV.avcodecVersion < 55)

/-- Macro `#define AV_HAS_API_REFCOUNTED_FRAMES(pAV) (AV_VERSION_MAJOR(pAV->avcodecVersion) >= 55)` -/
def AV_HAS_API_REFCOUNTED_FRAMES (pAV : FFMPEGToolBasicAV_t) : Bool :=
  decide (AV_VERSION_MAJOR pAV.avcodecVersion ≥ 55)

/-- A context record whose only field of interest is the packed codec version. -/
def ctxOfVersion (v : Nat) : FFMPEGToolBasicAV_t :=
  { avcodecVersion := v, avformatVersion := 0, avutilVersion := 0,
    vid := -2, vPTS := 0, vPTSStats := ⟨0, 0, 0, 0⟩,
    aid := -2, aPTS := 0, aPTSStats := ⟨0, 0, 0, 0⟩ }

/-- Packing of a version triple, as the decoder library reports it
(`major << 16 | minor << 8 | micro`). -/
def packedVersion (major minor micro : Nat) : Nat :=
  major * 65536 + minor * 256 + micro

/-! ## Rescaling -/

/-- Record `AVRational` of the decoder library: `struct { int num; int den; }`. -/
structure AVRational where
  num : Int
  den : Int
  deriving DecidableEq, Repr

/-- Function
`static inline int32_t my_av_q2i32(int64_t snum, AVRational a){
    return (int32_t) ( ( snum * (int64_t) a.num ) / (int64_t)a.den );
}`

The product and the quotient are formed in `int64_t`; `/` truncates toward zero
(`Int.tdiv`). The three situations in which C leaves the expression undefined
(product outside `int64_t`, zero divisor, `INT64_MIN / -1`) yield `none`. The final
cast converts the quotient to `int32_t`. -/
def my_av_q2i32 (snum : Int) (a : AVRational) : Option Int :=
  let p := snum * a.num
  if ¬ CType.int64.holds p then none
  else if a.den = 0 then none
  else if p = CType.int64.minVal ∧ a.den = -1 then none
  else some (CType.int32.convert (p.tdiv a.den))

/-! ## PTS consistency tracker -/

/-- Modelled from the spec: the state of a `PTSStats` right after a reset. The
header declares the record only; the spec (4.2) requires that the first observation
finds no valid previous value, so both `Last` fields hold the sentinel `nopts` and
both counters are zero. -/
def PTSStats.reset (nopts : Int) : PTSStats :=
  { ptsError := 0, dtsError := 0, ptsLast := nopts, dtsLast := nopts }

/-- Modelled from the spec: `observe(stats, newPTS, newDTS)` of section 4.2, whose
body is not part of the header. If `newPTS` is not the sentinel, then `ptsError` is
incremented when `ptsLast` is valid and `newPTS < ptsLast`, and `ptsLast` becomes
`newPTS`; a sentinel `newPTS` changes nothing. Symmetrically for `newDTS`. The
counters are `int64_t`, so the increment is reduced to that type. The value `nopts`
that the comparison against the sentinel singles out is a parameter. -/
def observe (nopts : Int) (s : PTSStats) (newPTS newDTS : Int) : PTSStats :=
  let s1 : PTSStats :=
    if newPTS ≠ nopts then
      { s with
        ptsError :=
          if s.ptsLast ≠ nopts ∧ newPTS < s.ptsLast then
            CType.int64.convert (s.ptsError + 1)
          else s.ptsError
        ptsLast := newPTS }
    else s
  if newDTS ≠ nopts then
    { s1 with
      dtsError :=
        if s1.dtsLast ≠ nopts ∧ newDTS < s1.dtsLast then
          CType.int64.convert (s1.dtsError + 1)
        else s1.dtsError
      dtsLast := newDTS }
  else s1

/-- Replay of a sequence of `(PTS, DTS)` observations, oldest first. -/
def replay (nopts : Int) (s : PTSStats) (obs : List (Int × Int)) : PTSStats :=
  obs.foldl (fun st o => observe nopts st o.1 o.2) s

/-- The values of a sequence that are not the sentinel, in order. -/
def validOnly (nopts : Int) (xs : List Int) : List Int :=
  xs.filter (fun x => decide (x ≠ nopts))

/-- Number of adjacent pairs of a sequence whose second member is strictly less
than the first. -/
def backwardSteps : List Int → Nat
  | [] => 0
  | [_] => 0
  | a :: b :: rest => (if b < a then 1 else 0) + backwardSteps (b :: rest)

/-- Backward steps that a tracker whose last value is `last` counts on `xs`. -/
def stepsFrom (nopts last : Int) : List Int → Nat
  | [] => 0
  | x :: xs =>
    if x = nopts then stepsFrom nopts last xs
    else (if last ≠ nopts ∧ x < last then 1 else 0) + stepsFrom nopts x xs

/-- Last value a tracker holds after `xs`, starting from `last`. -/
def lastFrom (nopts last : Int) : List Int → Int
  | [] => last
  | x :: xs => if x = nopts then lastFrom nopts last xs else lastFrom nopts x xs

/-! ## Helper lemmas -/

theorem AV_VERSION_MAJOR_eq (i : Nat) : AV_VERSION_MAJOR i = (i / 65536) % 256 := by
  unfold AV_VERSION_MAJOR
  have h : (0xFF : Nat) = 2 ^ 8 - 1 := by norm_num
  rw [h, Nat.and_pow_two_sub_one_eq_mod, Nat.shiftRight_eq_div_pow]

/-! ## Sentinels -/

/-- C2: `END_OF_STREAM_PTS` is the `int` constant `2^31 - 1 = 2147483647`, the
greatest `int32_t` value; it differs from `INVALID_PTS` as a constant, under `==`,
and after storing both in 32-bit signed fields; and no 32-bit signed value compares
equal to both sentinels. -/
theorem END_OF_STREAM_PTS_is_int32_max :
    END_OF_STREAM_PTS = ⟨.int32, 2147483647⟩ ∧
    END_OF_STREAM_PTS.val = 2 ^ 31 - 1 ∧
    END_OF_STREAM_PTS.val = CType.int32.maxVal ∧
    (END_OF_STREAM_PTS.storeAs .int32).val = 2147483647 ∧
    END_OF_STREAM_PTS.val ≠ INVALID_PTS.val ∧
    cEq END_OF_STREAM_PTS INVALID_PTS = false ∧
    (END_OF_STREAM_PTS.storeAs .int32).val ≠ (INVALID_PTS.storeAs .int32).val ∧
    ∀ v : Int, ¬ (CType.int32.holds v ∧ cEq ⟨.int32, v⟩ INVALID_PTS = true ∧
      cEq ⟨.int32, v⟩ END_OF_STREAM_PTS = true) := by
  refine ⟨by decide, by decide, by decide, by decide, by decide, by decide, by decide, ?_⟩
  intro v
  simp only [cEq, INVALID_PTS, END_OF_STREAM_PTS, hexConstant, CType.holds, CType.common,
    CType.rank, CType.convert, CType.minVal, CType.maxVal, CType.isSigned, CType.bits,
    decide_eq_true_eq]
  norm_num
  omega

/-- C7, as stated, fails: `-2147483648` is a 64-bit signed value, it is the least
32-bit signed value, and yet the C comparison `x == INVALID_PTS` is false for it;
and the comparison is true for the 64-bit signed value `+2147483648`, which is not
the least 32-bit signed value. -/
theorem INVALID_PTS_int64_min_not_recognised :
    CType.int64.holds (-2147483648) ∧
    ¬ (cEq ⟨.int64, -2147483648⟩ INVALID_PTS = true ↔
        (-2147483648 : Int) = CType.int32.minVal) ∧
    CType.int64.holds 2147483648 ∧
    ¬ (cEq ⟨.int64, 2147483648⟩ INVALID_PTS = true ↔
        (2147483648 : Int) = CType.int32.minVal) := by
  decide

/-- C7, amended: for a 32-bit signed timestamp `v` (the kind held in `vPTS`, `aPTS`)
the C comparison `v == INVALID_PTS` is true exactly when `v = -2147483648`; for a
64-bit signed timestamp `x` (the kind held in `PTSStats`) the comparison
`x == INVALID_PTS` is true exactly when `x = +2147483648`, so it is false at
`x = -2147483648`: the sentinel denotes the least 32-bit signed value against 32-bit
operands only. -/
theorem INVALID_PTS_int64_comparison :
    cEq ⟨.int64, -2147483648⟩ INVALID_PTS = false ∧
    cEq ⟨.int64, 2147483648⟩ INVALID_PTS = true ∧
    cEq ⟨.int32, -2147483648⟩ INVALID_PTS = true ∧
    (∀ x : Int, (CType.int64.holds x ∧ cEq ⟨.int64, x⟩ INVALID_PTS = true) ↔
      x = 2147483648) ∧
    (∀ v : Int, (CType.int32.holds v ∧ cEq ⟨.int32, v⟩ INVALID_PTS = true) ↔
      v = CType.int32.minVal) := by
  refine ⟨by decide, by decide, by decide, ?_, ?_⟩
  · intro x
    simp only [cEq, INVALID_PTS, hexConstant, CType.holds, CType.common, CType.rank,
      CType.convert, CType.minVal, CType.maxVal, CType.isSigned, CType.bits,
      decide_eq_true_eq]
    norm_num
    omega
  · intro v
    simp only [cEq, INVALID_PTS, hexConstant, CType.holds, CType.common, CType.rank,
      CType.convert, CType.minVal, CType.maxVal, CType.isSigned, CType.bits,
      decide_eq_true_eq]
    norm_num
    omega

/-! ## Stream selectors -/

/-- C4: `AV_STREAM_ID_NONE = -2` and `AV_STREAM_ID_AUTO = -1` are distinct and
negative; a non-negative index is neither of them; and a selector value `s ≥ -2`
satisfies exactly one of `s = NONE`, `s = AUTO`, `0 ≤ s`. -/
theorem stream_selector_trichotomy :
    AV_STREAM_ID_NONE = -2 ∧ AV_STREAM_ID_AUTO = -1 ∧
    AV_STREAM_ID_NONE ≠ AV_STREAM_ID_AUTO ∧
    AV_STREAM_ID_NONE < 0 ∧ AV_STREAM_ID_AUTO < 0 ∧
    (∀ i : Int, 0 ≤ i → i ≠ AV_STREAM_ID_NONE ∧ i ≠ AV_STREAM_ID_AUTO) ∧
    (∀ s : Int, -2 ≤ s →
      (s = AV_STREAM_ID_NONE ∧ s ≠ AV_STREAM_ID_AUTO ∧ ¬ 0 ≤ s) ∨
      (s ≠ AV_STREAM_ID_NONE ∧ s = AV_STREAM_ID_AUTO ∧ ¬ 0 ≤ s) ∨
      (s ≠ AV_STREAM_ID_NONE ∧ s ≠ AV_STREAM_ID_AUTO ∧ 0 ≤ s)) := by
  unfold AV_STREAM_ID_NONE AV_STREAM_ID_AUTO
  refine ⟨rfl, rfl, by decide, by decide, by decide, ?_, ?_⟩
  · intro i hi
    omega
  · intro s hs
    omega

/-- Witness of C4 at the index `3` and at the selector `-1`. -/
theorem stream_selector_trichotomy_witness :
    ((3 : Int) ≠ AV_STREAM_ID_NONE ∧ (3 : Int) ≠ AV_STREAM_ID_AUTO) ∧
    (((-1 : Int) = AV_STREAM_ID_NONE ∧ (-1 : Int) ≠ AV_STREAM_ID_AUTO ∧ ¬ 0 ≤ (-1 : Int)) ∨
      ((-1 : Int) ≠ AV_STREAM_ID_NONE ∧ (-1 : Int) = AV_STREAM_ID_AUTO ∧ ¬ 0 ≤ (-1 : Int)) ∨
      ((-1 : Int) ≠ AV_STREAM_ID_NONE ∧ (-1 : Int) ≠ AV_STREAM_ID_AUTO ∧ 0 ≤ (-1 : Int))) :=
  ⟨stream_selector_trichotomy.2.2.2.2.2.1 3 (by decide),
   stream_selector_trichotomy.2.2.2.2.2.2 (-1) (by decide)⟩

/-! ## Version predicates -/

/-- C3, as stated, fails: the version word `0x01000000 = 16777216` is a 32-bit value
not below `55 * 65536`, yet `AV_HAS_API_REFCOUNTED_FRAMES` is false for it; and the
predicate holds at `55 * 65536` but not at the larger `16777216`. -/
theorem refcounted_threshold_fails_beyond_major_field :
    (16777216 : Nat) < 2 ^ 32 ∧
    ¬ (AV_HAS_API_REFCOUNTED_FRAMES (ctxOfVersion 16777216) = true ↔
        55 * 65536 ≤ (ctxOfVersion 16777216).avcodecVersion) ∧
    ¬ (AV_HAS_API_REFCOUNTED_FRAMES (ctxOfVersion (55 * 65536)) = true →
        55 * 65536 ≤ 16777216 →
        AV_HAS_API_REFCOUNTED_FRAMES (ctxOfVersion 16777216) = true) := by
  decide

/-- C3, amended: `AV_HAS_API_REFCOUNTED_FRAMES` is true exactly when the 8-bit major
field `(v >> 16) & 0xFF` of the version word is at least 55; for a version word
`v < 2^24` (nothing above the major field) this is exactly `v ≥ 55 * 65536`, and among
such words the capability is monotone. -/
theorem refcounted_iff_threshold (pAV pW : FFMPEGToolBasicAV_t) :
    (AV_HAS_API_REFCOUNTED_FRAMES pAV = true ↔ 55 ≤ (pAV.avcodecVersion / 65536) % 256) ∧
    (pAV.avcodecVersion < 2 ^ 24 →
      (AV_HAS_API_REFCOUNTED_FRAMES pAV = true ↔ 55 * 65536 ≤ pAV.avcodecVersion)) ∧
    (pAV.avcodecVersion < 2 ^ 24 → pW.avcodecVersion < 2 ^ 24 →
      AV_HAS_API_REFCOUNTED_FRAMES pAV = true → pAV.avcodecVersion ≤ pW.avcodecVersion →
      AV_HAS_API_REFCOUNTED_FRAMES pW = true) := by
  simp only [AV_HAS_API_REFCOUNTED_FRAMES, AV_VERSION_MAJOR_eq, decide_eq_true_eq, ge_iff_le]
  refine ⟨trivial, ?_, ?_⟩
  · intro hv
    norm_num at hv
    omega
  · intro hv hw
    norm_num at hv hw
    omega

/-- Witness of the amended C3 at versions 55.0.0 and 56.1.2. -/
theorem refcounted_iff_threshold_witness :
    (ctxOfVersion (packedVersion 55 0 0)).avcodecVersion < 2 ^ 24 ∧
    (ctxOfVersion (packedVersion 56 1 2)).avcodecVersion < 2 ^ 24 ∧
    (AV_HAS_API_REFCOUNTED_FRAMES (ctxOfVersion (packedVersion 55 0 0)) = true ↔
      55 * 65536 ≤ (ctxOfVersion (packedVersion 55 0 0)).avcodecVersion) ∧
    AV_HAS_API_REFCOUNTED_FRAMES (ctxOfVersion (packedVersion 56 1 2)) = true :=
  have h := refcounted_iff_threshold (ctxOfVersion (packedVersion 55 0 0))
    (ctxOfVersion (packedVersion 56 1 2))
  ⟨by decide, by decide, h.2.1 (by decide),
    h.2.2 (by decide) (by decide) (by decide) (by decide)⟩

/-- C5: for every `avcodecVersion` value, exactly one of
`AV_HAS_API_REQUEST_CHANNELS` and `AV_HAS_API_REFCOUNTED_FRAMES` is true: they are
never both true and never both false. -/
theorem request_channels_xor_refcounted (pAV : FFMPEGToolBasicAV_t) :
    ((AV_HAS_API_REQUEST_CHANNELS pAV = true ∧ AV_HAS_API_REFCOUNTED_FRAMES pAV = false) ∨
      (AV_HAS_API_REQUEST_CHANNELS pAV = false ∧ AV_HAS_API_REFCOUNTED_FRAMES pAV = true)) ∧
    AV_HAS_API_REQUEST_CHANNELS pAV = !AV_HAS_API_REFCOUNTED_FRAMES pAV := by
  have h : AV_HAS_API_REQUEST_CHANNELS pAV = !AV_HAS_API_REFCOUNTED_FRAMES pAV := by
    simp only [AV_HAS_API_REQUEST_CHANNELS, AV_HAS_API_REFCOUNTED_FRAMES, ge_iff_le,
      ← decide_not, not_le]
  refine ⟨?_, h⟩
  rw [h]
  cases AV_HAS_API_REFCOUNTED_FRAMES pAV <;> simp

/-! ## Rescaling -/

theorem tdiv_bounds_pos (p d : Int) (hp : 0 ≤ p) (hd : 0 < d) :
    |d * p.tdiv d| ≤ |p| ∧ |p - d * p.tdiv d| < |d| := by
  rw [Int.tdiv_eq_ediv hp (le_of_lt hd)]
  have h1 : p % d + d * (p / d) = p := Int.emod_add_ediv p d
  have h2 : 0 ≤ p % d := Int.emod_nonneg p (ne_of_gt hd)
  have h3 : p % d < d := Int.emod_lt_of_pos p hd
  have h4 : 0 ≤ d * (p / d) := mul_nonneg (le_of_lt hd) (Int.ediv_nonneg hp (le_of_lt hd))
  rw [abs_of_nonneg h4, abs_of_nonneg hp, abs_of_pos hd]
  refine ⟨by linarith, ?_⟩
  rw [abs_lt]
  constructor <;> linarith

theorem tdiv_bounds_nonneg (p d : Int) (hp : 0 ≤ p) (hd : d ≠ 0) :
    |d * p.tdiv d| ≤ |p| ∧ |p - d * p.tdiv d| < |d| := by
  rcases lt_or_gt_of_ne hd with h | h
  · have := tdiv_bounds_pos p (-d) hp (by linarith)
    simpa [Int.tdiv_neg] using this
  · exact tdiv_bounds_pos p d hp h

theorem tdiv_bounds (p d : Int) (hd : d ≠ 0) :
    |d * p.tdiv d| ≤ |p| ∧ |p - d * p.tdiv d| < |d| := by
  rcases le_total 0 p with h | h
  · exact tdiv_bounds_nonneg p d h hd
  · have := tdiv_bounds_nonneg (-p) d (by linarith) hd
    rw [Int.neg_tdiv] at this
    have e1 : d * -(p.tdiv d) = -(d * p.tdiv d) := by ring
    have e2 : -p - -(d * p.tdiv d) = -(p - d * p.tdiv d) := by ring
    rw [e1, e2, abs_neg, abs_neg, abs_neg] at this
    exact this

theorem tdiv_mono (p1 p2 d : Int) (hd : 0 < d) (h : p1 ≤ p2) :
    p1.tdiv d ≤ p2.tdiv d := by
  rcases le_or_lt 0 p1 with h1 | h1
  · rw [Int.tdiv_eq_ediv h1 (le_of_lt hd), Int.tdiv_eq_ediv (le_trans h1 h) (le_of_lt hd)]
    exact Int.ediv_le_ediv hd h
  · have e1 : p1 = -(-p1) := by ring
    have n1 : p1.tdiv d = -((-p1) / d) := by
      conv_lhs => rw [e1]
      rw [Int.neg_tdiv, Int.tdiv_eq_ediv (by linarith) (le_of_lt hd)]
    have q1 : 0 ≤ (-p1) / d := Int.ediv_nonneg (by linarith) (le_of_lt hd)
    rcases le_or_lt 0 p2 with h2 | h2
    · have q2 : 0 ≤ p2.tdiv d := Int.tdiv_nonneg h2 (le_of_lt hd)
      linarith
    · have e2 : p2 = -(-p2) := by ring
      have n2 : p2.tdiv d = -((-p2) / d) := by
        conv_lhs => rw [e2]
        rw [Int.neg_tdiv, Int.tdiv_eq_ediv (by linarith) (le_of_lt hd)]
      have : (-p2) / d ≤ (-p1) / d := Int.ediv_le_ediv hd (by linarith)
      linarith

theorem my_av_q2i32_eq (snum : Int) (a : AVRational) (hden : a.den ≠ 0)
    (hp : CType.int64.holds (snum * a.num))
    (hq : CType.int32.holds ((snum * a.num).tdiv a.den)) :
    my_av_q2i32 snum a = some ((snum * a.num).tdiv a.den) := by
  have hno : ¬ (snum * a.num = CType.int64.minVal ∧ a.den = -1) := by
    rintro ⟨e1, e2⟩
    rw [e1, e2] at hq
    revert hq
    decide
  simp only [my_av_q2i32, hp, not_true_eq_false, if_false, hden, hno]
  congr 1
  simp only [CType.holds, CType.minVal, CType.maxVal, CType.isSigned, CType.bits] at hq
  simp only [CType.convert, CType.isSigned, CType.bits]
  norm_num at hq ⊢
  omega

/-- C8: when the divisor is non-zero, the product fits in `int64_t` and the quotient
fits in `int32_t`, `my_av_q2i32` returns the quotient of `snum * a.num` by `a.den`
truncated toward zero: its magnitude does not exceed that of the exact rational
value and it differs from that value by less than 1. -/
theorem my_av_q2i32_truncates (snum : Int) (a : AVRational) (hden : a.den ≠ 0)
    (hp : CType.int64.holds (snum * a.num))
    (hq : CType.int32.holds ((snum * a.num).tdiv a.den)) :
    my_av_q2i32 snum a = some ((snum * a.num).tdiv a.den) ∧
    |(((snum * a.num).tdiv a.den : Int) : ℚ)| ≤ |((snum * a.num : Int) : ℚ) / (a.den : ℚ)| ∧
    |((snum * a.num : Int) : ℚ) / (a.den : ℚ) - (((snum * a.num).tdiv a.den : Int) : ℚ)| < 1 := by
  refine ⟨my_av_q2i32_eq snum a hden hp hq, ?_, ?_⟩
  all_goals
    obtain ⟨b1, b2⟩ := tdiv_bounds (snum * a.num) a.den hden
    have hdq : (0 : ℚ) < |(a.den : ℚ)| := abs_pos.mpr (by exact_mod_cast hden)
    have c1 : |(a.den : ℚ) * (((snum * a.num).tdiv a.den : Int) : ℚ)| ≤
        |((snum * a.num : Int) : ℚ)| := by exact_mod_cast b1
    have c2 : |((snum * a.num : Int) : ℚ) - (a.den : ℚ) * (((snum * a.num).tdiv a.den : Int) : ℚ)|
        < |(a.den : ℚ)| := by exact_mod_cast b2
  · rw [abs_div, le_div_iff₀ hdq, ← abs_mul, mul_comm]
    exact c1
  · have hne : (a.den : ℚ) ≠ 0 := by exact_mod_cast hden
    have e : ((snum * a.num : Int) : ℚ) / (a.den : ℚ) - (((snum * a.num).tdiv a.den : Int) : ℚ)
        = (((snum * a.num : Int) : ℚ) - (a.den : ℚ) * (((snum * a.num).tdiv a.den : Int) : ℚ))
          / (a.den : ℚ) := by
      field_simp
    rw [e, abs_div, div_lt_one hdq]
    exact c2

/-- Witness of C8: `-7 * 1 / 2` is `-3`, not `-4`. -/
theorem my_av_q2i32_truncates_witness :
    my_av_q2i32 (-7) ⟨1, 2⟩ = some (-3) ∧
    |((-7 * 1 : Int) : ℚ) / ((2 : Int) : ℚ) - (((-7 * 1 : Int).tdiv 2 : Int) : ℚ)| < 1 :=
  have h := my_av_q2i32_truncates (-7) ⟨1, 2⟩ (by decide) (by decide) (by decide)
  ⟨h.1, h.2.2⟩

/-- C9: for `a.num ≥ 0`, `a.den > 0` and `snum1 ≤ snum2`, with both products in
`int64_t` and both quotients in `int32_t`, both calls return a value and
`my_av_q2i32(snum1, a) ≤ my_av_q2i32(snum2, a)`. -/
theorem my_av_q2i32_monotone (snum1 snum2 : Int) (a : AVRational)
    (hnum : 0 ≤ a.num) (hden : 0 < a.den) (hle : snum1 ≤ snum2)
    (hp1 : CType.int64.holds (snum1 * a.num)) (hp2 : CType.int64.holds (snum2 * a.num))
    (hq1 : CType.int32.holds ((snum1 * a.num).tdiv a.den))
    (hq2 : CType.int32.holds ((snum2 * a.num).tdiv a.den)) :
    ∃ r1 r2 : Int, my_av_q2i32 snum1 a = some r1 ∧ my_av_q2i32 snum2 a = some r2 ∧
      r1 ≤ r2 :=
  ⟨(snum1 * a.num).tdiv a.den, (snum2 * a.num).tdiv a.den,
    my_av_q2i32_eq snum1 a (ne_of_gt hden) hp1 hq1,
    my_av_q2i32_eq snum2 a (ne_of_gt hden) hp2 hq2,
    tdiv_mono _ _ _ hden (mul_le_mul_of_nonneg_right hle hnum)⟩

/-- Witness of C9 across zero: `-7/2 -> -3` and `5/2 -> 2`. -/
theorem my_av_q2i32_monotone_witness :
    ∃ r1 r2 : Int, my_av_q2i32 (-7) ⟨1, 2⟩ = some r1 ∧ my_av_q2i32 5 ⟨1, 2⟩ = some r2 ∧
      r1 ≤ r2 :=
  my_av_q2i32_monotone (-7) 5 ⟨1, 2⟩ (by decide) (by decide) (by decide) (by decide)
    (by decide) (by decide) (by decide)

/-! ## PTS consistency tracker -/

theorem convert64_holds (v : Int) : CType.int64.holds (CType.int64.convert v) := by
  simp only [CType.holds, CType.minVal, CType.maxVal, CType.convert, CType.isSigned,
    CType.bits]
  norm_num
  omega

theorem convert64_of_holds (v : Int) (h : CType.int64.holds v) :
    CType.int64.convert v = v := by
  simp only [CType.holds, CType.minVal, CType.maxVal, CType.isSigned, CType.bits] at h
  simp only [CType.convert, CType.isSigned, CType.bits]
  norm_num at h ⊢
  omega

theorem convert64_add (a b : Int) :
    CType.int64.convert (CType.int64.convert a + b) = CType.int64.convert (a + b) := by
  simp only [CType.convert, CType.isSigned, CType.bits]
  norm_num
  omega

theorem observe_ptsError (nopts : Int) (s : PTSStats) (p d : Int) :
    (observe nopts s p d).ptsError =
      if p = nopts then s.ptsError
      else if s.ptsLast ≠ nopts ∧ p < s.ptsLast then CType.int64.convert (s.ptsError + 1)
      else s.ptsError := by
  unfold observe
  by_cases hp : p = nopts <;> by_cases hd : d = nopts <;> simp [hp, hd]

theorem observe_ptsLast (nopts : Int) (s : PTSStats) (p d : Int) :
    (observe nopts s p d).ptsLast = if p = nopts then s.ptsLast else p := by
  unfold observe
  by_cases hp : p = nopts <;> by_cases hd : d = nopts <;> simp [hp, hd]

theorem observe_dtsError_reset (nopts p d : Int) :
    (observe nopts (PTSStats.reset nopts) p d).dtsError = 0 := by
  unfold observe PTSStats.reset
  by_cases hp : p = nopts <;> by_cases hd : d = nopts <;> simp [hp, hd]

theorem replay_cons (nopts : Int) (s : PTSStats) (o : Int × Int) (obs : List (Int × Int)) :
    replay nopts s (o :: obs) = replay nopts (observe nopts s o.1 o.2) obs := rfl

theorem replay_pts (nopts : Int) (obs : List (Int × Int)) :
    ∀ s : PTSStats, CType.int64.holds s.ptsError →
      (replay nopts s obs).ptsLast = lastFrom nopts s.ptsLast (obs.map Prod.fst) ∧
      (replay nopts s obs).ptsError =
        CType.int64.convert (s.ptsError + stepsFrom nopts s.ptsLast (obs.map Prod.fst)) := by
  induction obs with
  | nil =>
    intro s hs
    simp [replay, lastFrom, stepsFrom, convert64_of_holds _ hs]
  | cons o rest ih =>
    intro s hs
    have hnext : CType.int64.holds (observe nopts s o.1 o.2).ptsError := by
      rw [observe_ptsError]
      split_ifs
      · exact hs
      · exact convert64_holds _
      · exact hs
    obtain ⟨i1, i2⟩ := ih (observe nopts s o.1 o.2) hnext
    rw [replay_cons, i1, i2, observe_ptsLast, observe_ptsError]
    simp only [List.map_cons, lastFrom, stepsFrom]
    refine ⟨?_, ?_⟩
    · by_cases hp : o.1 = nopts <;> simp [hp]
    · by_cases hp : o.1 = nopts
      · simp [hp]
      · by_cases hb : s.ptsLast ≠ nopts ∧ o.1 < s.ptsLast
        · simp only [if_neg hp, if_pos hb]
          rw [convert64_add]
          congr 1
          push_cast
          ring
        · simp [hp, hb]

theorem stepsFrom_le_length (nopts : Int) (xs : List Int) :
    ∀ last : Int, stepsFrom nopts last xs ≤ xs.length := by
  induction xs with
  | nil => intro last; simp [stepsFrom]
  | cons x rest ih =>
    intro last
    simp only [stepsFrom, List.length_cons]
    split_ifs
    · have := ih last
      omega
    · have := ih x
      omega
    · have := ih x
      omega

theorem stepsFrom_eq_backwardSteps (nopts : Int) (xs : List Int) :
    ∀ last : Int,
      stepsFrom nopts last xs =
        if last = nopts then backwardSteps (validOnly nopts xs)
        else backwardSteps (last :: validOnly nopts xs) := by
  induction xs with
  | nil => intro last; simp [stepsFrom, validOnly, backwardSteps]
  | cons x rest ih =>
    intro last
    by_cases hx : x = nopts
    · subst hx
      have hv : validOnly x (x :: rest) = validOnly x rest := by
        simp [validOnly]
      simp only [stepsFrom, if_true, hv]
      exact ih last
    · have hv : validOnly nopts (x :: rest) = x :: validOnly nopts rest := by
        simp [validOnly, hx]
      simp only [stepsFrom, hx, if_false, hv, ih x]
      by_cases hl : last = nopts
      · simp [hl]
      · simp [hl, backwardSteps]

theorem lastFrom_eq_getLast (nopts : Int) (xs : List Int) :
    ∀ last : Int,
      lastFrom nopts last xs = ((validOnly nopts xs).getLast?).getD last := by
  induction xs with
  | nil => intro last; simp [lastFrom, validOnly]
  | cons x rest ih =>
    intro last
    by_cases hx : x = nopts
    · subst hx
      have hv : validOnly x (x :: rest) = validOnly x rest := by
        simp [validOnly]
      simp only [lastFrom, if_true, hv]
      exact ih last
    · have hv : validOnly nopts (x :: rest) = x :: validOnly nopts rest := by
        simp [validOnly, hx]
      simp only [lastFrom, hx, if_false, hv, ih x]
      cases h : validOnly nopts rest with
      | nil => simp
      | cons y ys =>
        rw [List.getLast?_cons_cons, List.getLast?_eq_getLast _ (List.cons_ne_nil y ys)]
        simp

/-- C6: replaying fewer than `2^63` observations on a freshly reset `PTSStats`
leaves in `ptsError` the number of adjacent pairs of the non-sentinel PTS values
whose newer member is strictly less than the older, and in `ptsLast` the last
non-sentinel PTS (the sentinel if there was none); a sentinel PTS changes neither
`ptsError` nor `ptsLast`; and the first observation after a reset increments neither
error counter. -/
theorem ptsError_counts_backward_steps (nopts : Int) (obs : List (Int × Int))
    (hlen : (obs.length : Int) ≤ CType.int64.maxVal) :
    (replay nopts (PTSStats.reset nopts) obs).ptsError =
      backwardSteps (validOnly nopts (obs.map Prod.fst)) ∧
    (replay nopts (PTSStats.reset nopts) obs).ptsLast =
      ((validOnly nopts (obs.map Prod.fst)).getLast?).getD nopts ∧
    (∀ (s : PTSStats) (d : Int),
      (observe nopts s nopts d).ptsError = s.ptsError ∧
      (observe nopts s nopts d).ptsLast = s.ptsLast) ∧
    (∀ p d : Int,
      (observe nopts (PTSStats.reset nopts) p d).ptsError = 0 ∧
      (observe nopts (PTSStats.reset nopts) p d).dtsError = 0) := by
  have h0 : CType.int64.holds (PTSStats.reset nopts).ptsError := by
    simp only [PTSStats.reset]
    decide
  obtain ⟨r1, r2⟩ := replay_pts nopts obs (PTSStats.reset nopts) h0
  refine ⟨?_, ?_, ?_, ?_⟩
  · rw [r2]
    have e := stepsFrom_eq_backwardSteps nopts (obs.map Prod.fst) nopts
    simp only [if_true] at e
    have hle := stepsFrom_le_length nopts (obs.map Prod.fst) nopts
    rw [List.length_map] at hle
    simp only [PTSStats.reset, zero_add]
    rw [e] at hle ⊢
    apply convert64_of_holds
    simp only [CType.holds, CType.minVal, CType.maxVal, CType.isSigned, CType.bits] at hlen ⊢
    norm_num at hlen ⊢
    omega
  · rw [r1, lastFrom_eq_getLast]
    rfl
  · intro s d
    rw [observe_ptsError, observe_ptsLast]
    simp
  · intro p d
    rw [observe_ptsError, observe_dtsError_reset]
    simp [PTSStats.reset]

/-- Witness of C6 on the PTS sequence `0, 40, 80, 120, 90, 160` interleaved with two
sentinel entries: one backward step, last value 160. -/
theorem ptsError_counts_backward_steps_witness :
    (replay (-2147483648) (PTSStats.reset (-2147483648))
      [(0, 0), (40, 40), (-2147483648, 80), (80, 80), (120, 120), (90, 90),
        (-2147483648, -2147483648), (160, 160)]).ptsError = 1 ∧
    (replay (-2147483648) (PTSStats.reset (-2147483648))
      [(0, 0), (40, 40), (-2147483648, 80), (80, 80), (120, 120), (90, 90),
        (-2147483648, -2147483648), (160, 160)]).ptsLast = 160 :=
  have h := ptsError_counts_backward_steps (-2147483648)
    [(0, 0), (40, 40), (-2147483648, 80), (80, 80), (120, 120), (90, 90),
      (-2147483648, -2147483648), (160, 160)] (by decide)
  ⟨h.1.trans (by decide), h.2.1.trans (by decide)⟩

end FFmpegTool
